import Mathlib

/-!
Shallow embedding of the core of `app.js` (Olympic medal-count choropleth):
the dataset unifier `buildUnifiedMedalData`, the classifier build phase
`calculateQuantileBreaks`, the classifier query phase `getColorForMedalCount`,
and the year resolver `getOlympicsForYear`, together with theorems checking
the specification's claims about them.

Modelling conventions:
* JS objects used as string-keyed maps become association lists
  `List (String × _)`; property access becomes `List.lookup` (JS objects have
  unique keys, and both the embedding and the code resolve a key to its first
  occurrence, so all theorems hold for arbitrary association lists).
* Medal counts are integers (`Int`).  `Math.ceil` on an integer is the
  identity; `Math.ceil(undefined)` is `NaN`.
* A possibly-`NaN` number is `Option Int` with `none` for `NaN`
  (and for `undefined` where it flows into arithmetic): any JS `<=`
  comparison involving `NaN` is false.
* The argument of `getColorForMedalCount` can be a number, `null` or
  `undefined`; it is modelled by the sum type `JsVal`.
-/

/-- One country's tally for one season in one year (`SeasonMedalEntry`).
`display_name` is optional, as in the JSON payload. -/
structure SeasonMedalEntry where
  gold : Int
  silver : Int
  bronze : Int
  historical : Bool
  display_name : Option String
deriving DecidableEq

/-- Per-season untouched totals recorded in a `seasons` breakdown. -/
structure SeasonTotals where
  gold : Int
  silver : Int
  bronze : Int
deriving DecidableEq

/-- The merged representation for one country in one year, as built by
`buildUnifiedMedalData`: `seasons` is set in the both-seasons branch,
`season` in the single-season branches. -/
structure UnifiedCountryEntry where
  gold : Int
  silver : Int
  bronze : Int
  historical : Bool
  display_name : Option String
  seasons : Option (SeasonTotals × SeasonTotals)
  season : Option String
deriving DecidableEq

/-- `summerMedals` / `winterMedals`: year → country → entry. -/
def SeasonYearTable : Type := List (String × List (String × SeasonMedalEntry))

/-- The unified table: year → country → merged entry. -/
def UnifiedYearTable : Type := List (String × List (String × UnifiedCountryEntry))

/-- Two-level property access `table[year][country]` (either level may be absent). -/
def lookup2 {α : Type} (t : List (String × List (String × α))) (y c : String) :
    Option α :=
  (t.lookup y).bind fun m => m.lookup c

/-- JavaScript `new Set(list)` iteration order: first occurrence of each
element, later duplicates dropped.  `seen` accumulates elements already kept. -/
def setDedupAux {α : Type} [DecidableEq α] (seen : List α) : List α → List α
  | [] => []
  | a :: rest =>
    if a ∈ seen then setDedupAux seen rest
    else a :: setDedupAux (a :: seen) rest

/-- `[...new Set(list)]`. -/
def setDedup {α : Type} [DecidableEq α] (l : List α) : List α :=
  setDedupAux [] l

/-- JavaScript `a || b` on optional strings (`display_name`): `undefined`
and the empty string are falsy, any other string is truthy. -/
def jsStrOr : Option String → Option String → Option String
  | some s, b => if s = "" then b else some s
  | none, b => b

/-- The body of the `allCountries.forEach` loop in `buildUnifiedMedalData`:
given the (possibly absent) summer and winter entries for one country,
produce the unified entry, or nothing when neither season has the country
(that case never occurs for countries in the union of keys). -/
def mkUnifiedEntry : Option SeasonMedalEntry → Option SeasonMedalEntry →
    Option UnifiedCountryEntry
  | some s, some w => some
      { gold := s.gold + w.gold
        silver := s.silver + w.silver
        bronze := s.bronze + w.bronze
        historical := s.historical || w.historical
        display_name := jsStrOr s.display_name w.display_name
        seasons := some (⟨s.gold, s.silver, s.bronze⟩, ⟨w.gold, w.silver, w.bronze⟩)
        season := none }
  | some s, none => some
      { gold := s.gold, silver := s.silver, bronze := s.bronze
        historical := s.historical, display_name := s.display_name
        seasons := none, season := some "summer" }
  | none, some w => some
      { gold := w.gold, silver := w.silver, bronze := w.bronze
        historical := w.historical, display_name := w.display_name
        seasons := none, season := some "winter" }
  | none, none => none

/-- One year of `buildUnifiedMedalData`: iterate the union of the two
country-key sets and emit an entry for each country found in either season. -/
def buildYearData (summerData winterData : List (String × SeasonMedalEntry)) :
    List (String × UnifiedCountryEntry) :=
  (setDedup (summerData.map Prod.fst ++ winterData.map Prod.fst)).filterMap
    fun isoCode =>
      (mkUnifiedEntry (summerData.lookup isoCode) (winterData.lookup isoCode)).map
        fun e => (isoCode, e)

/-- `buildUnifiedMedalData(summerMedals, winterMedals)`: for every year in
the union of the year-key sets, build the per-year map over the union of the
country-key sets (`summerMedals[year] || {}` becomes `getD _ []`). -/
def buildUnifiedMedalData (summerMedals winterMedals : SeasonYearTable) :
    UnifiedYearTable :=
  (setDedup (summerMedals.map Prod.fst ++ winterMedals.map Prod.fst)).map
    fun year =>
      (year,
        buildYearData ((summerMedals.lookup year).getD [])
          ((winterMedals.lookup year).getD []))

/-- The YlOrRd palette constant `COLOR_PALETTE`. -/
structure ColorPalette where
  noData : String
  colors : List String

def COLOR_PALETTE : ColorPalette :=
  { noData := "#f0f0f0"
    colors :=
      ["#fff7ec", "#fee8c8", "#fdd49e", "#fdbb84", "#fc8d59",
       "#ef6548", "#d7301f", "#b30000", "#7f0000"] }

/-- Collect every country-year total with `total > 0`, in iteration order
(the first half of `calculateQuantileBreaks`). -/
def collectMedalCounts (medalData : UnifiedYearTable) : List Int :=
  medalData.flatMap fun yearData =>
    yearData.2.filterMap fun country =>
      let total := country.2.gold + country.2.silver + country.2.bronze
      if total > 0 then some total else none

/-- JS `<=` on possibly-`NaN` numbers: any comparison with `NaN` is false. -/
def jsLeB : Option Int → Option Int → Bool
  | some x, some y => x ≤ y
  | _, _ => false

/-- The order the final `.sort((a, b) => a - b)` of `calculateQuantileBreaks`
establishes.  It is only ever applied to lists whose elements are all numeric
or to the singleton `[NaN]`, where any comparator gives the same result. -/
def jsLeRel (a b : Option Int) : Prop := jsLeB a b = true

instance : DecidableRel jsLeRel := fun a b =>
  inferInstanceAs (Decidable (jsLeB a b = true))

/-- `Math.ceil` as applied in `calculateQuantileBreaks`: medal totals are
integers, so the ceiling is the identity; `Math.ceil(undefined)` is `NaN`. -/
def jsCeil (x : Option Int) : Option Int := x

/-- Binary digit count of `T`, by fuel-bounded structural recursion so the
kernel can evaluate it.  128 units of fuel cover every product arising here
(an array length below `2^75` times a 53-bit significand); a larger input
falls back to the exact value, which the bound lemmas also cover. -/
def bitLenAux : Nat → Nat → Nat
  | 0, _ => 0
  | fuel + 1, T => if T = 0 then 0 else bitLenAux fuel (T / 2) + 1

def bitLen (T : Nat) : Nat := bitLenAux 128 T

/-- Round the truncated 53-bit significand `q` with dropped remainder `r`:
up when `r` exceeds half an ulp, down when below, and to the even of
`q`/`q + 1` on an exact tie — IEEE-754 round-to-nearest, ties-to-even. -/
def roundQ (q r half : Nat) : Nat :=
  if half < r then q + 1
  else if r < half then q
  else if q % 2 = 1 then q + 1 else q

/-- Round the integer `T` to at most 53 significant binary digits (to
nearest, ties to even).  Scaling by a power-of-two denominator is exact and
commutes with this rounding, so it is the significand rounding binary64
multiplication performs. -/
def roundSig (T : Nat) : Nat :=
  if bitLen T ≤ 53 then T
  else
    roundQ (T / 2^(bitLen T - 53)) (T % 2^(bitLen T - 53)) (2^(bitLen T - 53 - 1)) *
      2^(bitLen T - 53)

/-- `Math.floor(n * fr)` as the JS engine computes it, where `fr = (M, s)`
denotes the binary64 value `M / 2^s`: the exact integer product `n * M` is
rounded to 53 significant bits (`n` itself is exact for every feasible array
length), and the result is divided by `2^s` with truncation. -/
def jsMulFloor (n : Nat) (fr : Nat × Nat) : Nat :=
  roundSig (n * fr.1) / 2^fr.2

/-- The eight fraction literals 0.15, 0.35, 0.55, 0.70, 0.82, 0.91, 0.96,
0.99 as the binary64 doubles the JS engine actually multiplies by: each pair
`(M, s)` denotes the dyadic rational `M / 2^s`, the double nearest the
decimal literal (53-bit significand `M`). -/
def QUANTILE_FRACTIONS : List (Nat × Nat) :=
  [(5404319552844595, 55),
   (6305039478318694, 54),
   (4953959590107546, 53),
   (6305039478318694, 53),
   (7385903388887613, 53),
   (8196551321814303, 53),
   (8646911284551352, 53),
   (8917127262193582, 53)]

/-- `calculateQuantileBreaks`, as a function of the unified table it reads:
sort the positive totals ascending, pick
`allMedalCounts[Math.floor(allMedalCounts.length * fraction)]` for the 8
fixed fractions — the index computed in binary64 arithmetic, as the code
does (out-of-range access on an empty array yields `undefined`, whose
ceiling is `NaN = none`) — deduplicate with set semantics, and sort. -/
def calculateQuantileBreaks (medalData : UnifiedYearTable) : List (Option Int) :=
  let allMedalCounts := List.insertionSort (· ≤ ·) (collectMedalCounts medalData)
  let raw := QUANTILE_FRACTIONS.map fun fr =>
    jsCeil (allMedalCounts.get? (jsMulFloor allMedalCounts.length fr))
  List.insertionSort jsLeRel (setDedup raw)

/-- The argument of `getColorForMedalCount`: a number, `null`, or `undefined`. -/
inductive JsVal where
  | num (n : Int)
  | nullv
  | undef
deriving DecidableEq

/-- Index of the first break with `count <= quantileBreaks[i]` (`NaN` breaks
never satisfy the test); equals the list length when the loop falls through. -/
def findBreakIndex (count : Int) : List (Option Int) → Nat
  | [] => 0
  | b :: rest =>
    if jsLeB (some count) b then 0 else findBreakIndex count rest + 1

/-- `getColorForMedalCount(count)` as a function of `quantileBreaks`:
zero, `null` and `undefined` give the no-data color; otherwise the loop
returns `COLOR_PALETTE.colors[i]` for the first break with `count <= break`,
and the last (darkest) color when no break qualifies.  Out-of-range palette
access would give JS `undefined`, modelled by the `getD` default. -/
def getColorForMedalCount (quantileBreaks : List (Option Int)) (count : JsVal) :
    String :=
  match count with
  | .nullv => COLOR_PALETTE.noData
  | .undef => COLOR_PALETTE.noData
  | .num n =>
    if n = 0 then COLOR_PALETTE.noData
    else
      let i := findBreakIndex n quantileBreaks
      if i < quantileBreaks.length then COLOR_PALETTE.colors.getD i "undefined"
      else COLOR_PALETTE.colors.getD (COLOR_PALETTE.colors.length - 1) "undefined"

/-- The color index `getColorForMedalCount` reads the palette at for a
nonzero numeric count (bucket darkness). -/
def bucketIndex (quantileBreaks : List (Option Int)) (n : Int) : Nat :=
  if findBreakIndex n quantileBreaks < quantileBreaks.length then
    findBreakIndex n quantileBreaks
  else COLOR_PALETTE.colors.length - 1

/-- The fixed cancelled-years constant. -/
def cancelledYears : List Int := [1916, 1940, 1944]

/-- Result of `getOlympicsForYear`. -/
structure OlympicsInfo where
  cancelled : Bool
  hasSummer : Bool
  hasWinter : Bool
deriving DecidableEq

/-- The season-detection loop of `getOlympicsForYear`: a `seasons` breakdown
ends the scan with both flags set; otherwise `season` tags set the flags. -/
def scanSeasons : List (String × UnifiedCountryEntry) → Bool → Bool → Bool × Bool
  | [], hs, hw => (hs, hw)
  | (_, c) :: rest, hs, hw =>
    if c.seasons.isSome then (true, true)
    else if c.season = some "summer" then scanSeasons rest true hw
    else if c.season = some "winter" then scanSeasons rest hs true
    else scanSeasons rest hs hw

/-- `getOlympicsForYear(year)` as a function of the unified table it reads:
cancelled years short-circuit before any data lookup. -/
def getOlympicsForYear (medalData : UnifiedYearTable) (year : Int) :
    OlympicsInfo :=
  if year ∈ cancelledYears then ⟨true, false, false⟩
  else
    match medalData.lookup (toString year) with
    | none => ⟨false, false, false⟩
    | some yearData =>
      let p := scanSeasons yearData false false
      ⟨false, p.1, p.2⟩

-- Concrete tables used by examples and witnesses.

/-- The spec's 1992 Germany example: present in both seasons. -/
def exSummer : SeasonYearTable :=
  [("1992", [("DE", ⟨33, 21, 28, false, some "Germany"⟩)])]

def exWinter : SeasonYearTable :=
  [("1992", [("DE", ⟨10, 10, 6, false, none⟩)])]

/-- A unified table whose positive-total distribution is the spec's example
distribution `[1,2,2,3,5,8,13,21,34,55]`. -/
def mdTen : UnifiedYearTable :=
  [("2016",
    [("A", ⟨1, 0, 0, false, none, none, some "summer"⟩),
     ("B", ⟨2, 0, 0, false, none, none, some "summer"⟩),
     ("C", ⟨2, 0, 0, false, none, none, some "summer"⟩),
     ("D", ⟨3, 0, 0, false, none, none, some "summer"⟩),
     ("E", ⟨5, 0, 0, false, none, none, some "summer"⟩),
     ("F", ⟨8, 0, 0, false, none, none, some "summer"⟩),
     ("G", ⟨13, 0, 0, false, none, none, some "summer"⟩),
     ("H", ⟨21, 0, 0, false, none, none, some "summer"⟩),
     ("I", ⟨34, 0, 0, false, none, none, some "summer"⟩),
     ("J", ⟨55, 0, 0, false, none, none, some "summer"⟩)])]

/-- A one-entry unified table: distribution `[2]`, breaks `[2]`. -/
def mdSingle : UnifiedYearTable :=
  [("2016", [("US", ⟨2, 0, 0, false, none, none, some "summer"⟩)])]

/-- A table carrying (placeholder) data for the cancelled year 1916. -/
def md1916 : UnifiedYearTable :=
  [("1916", [("XX", ⟨1, 0, 0, false, none, none, some "summer"⟩)])]

/-- A summer entry whose `display_name` is present but is the empty string. -/
def cexSummer : SeasonYearTable :=
  [("1992", [("DE", ⟨33, 21, 28, false, some ""⟩)])]

def cexWinter : SeasonYearTable :=
  [("1992", [("DE", ⟨10, 10, 6, false, some "Winter Germany"⟩)])]

/-- The unified entry the 1992 Germany example produces. -/
def exEntry : UnifiedCountryEntry :=
  ⟨43, 31, 34, false, some "Germany", some (⟨33, 21, 28⟩, ⟨10, 10, 6⟩), none⟩

/-- The sorted positive-total distribution `calculateQuantileBreaks` indexes into. -/
def sortedCounts (medalData : UnifiedYearTable) : List Int :=
  List.insertionSort (· ≤ ·) (collectMedalCounts medalData)

/-- The 8 raw percentile picks of `calculateQuantileBreaks`, before
deduplication and the final sort. -/
def rawPicks (medalData : UnifiedYearTable) : List (Option Int) :=
  QUANTILE_FRACTIONS.map fun fr =>
    jsCeil ((sortedCounts medalData).get?
      (jsMulFloor (sortedCounts medalData).length fr))

/-- A table whose positive-total distribution is 1, 2, ..., 90: ninety
distinct values, a size at which the code's double-precision index for the
0.70 fraction differs from the exact floor index. -/
def md90 : UnifiedYearTable :=
  [("2016", (List.range 90).map fun i =>
    (toString i, ⟨(i : Int) + 1, 0, 0, false, none, none, some "summer"⟩))]

/-! ### Association-list and deduplication lemmas -/

theorem lookup_map_self {β : Type} (f : String → β) (ys : List String) (y : String) :
    ((ys.map fun a => (a, f a)).lookup y) = if y ∈ ys then some (f y) else none := by
  induction ys with
  | nil => simp
  | cons a t ih =>
    by_cases h : y = a
    · subst h; simp [List.lookup]
    · have hb : (y == a) = false := by simp [h]
      simp [List.lookup, hb, ih, h]

theorem lookup_isSome_iff {β : Type} (l : List (String × β)) (y : String) :
    (l.lookup y).isSome ↔ y ∈ l.map Prod.fst := by
  induction l with
  | nil => simp [List.lookup]
  | cons p t ih =>
    by_cases h : y = p.1
    · subst h; simp [List.lookup]
    · have hb : (y == p.1) = false := by simp [h]
      simp [List.lookup, hb, ih, h]

theorem lookup_eq_none_of_not_mem {β : Type} {l : List (String × β)} {y : String}
    (h : y ∉ l.map Prod.fst) : l.lookup y = none := by
  by_cases h2 : (l.lookup y).isSome
  · exact absurd ((lookup_isSome_iff l y).mp h2) h
  · exact Option.not_isSome_iff_eq_none.mp h2

theorem mem_setDedupAux {α : Type} [DecidableEq α] (b : α) :
    ∀ (l seen : List α), b ∈ setDedupAux seen l ↔ b ∈ l ∧ b ∉ seen := by
  intro l
  induction l with
  | nil => intro seen; simp [setDedupAux]
  | cons a t ih =>
    intro seen
    by_cases ha : a ∈ seen
    · rw [setDedupAux, if_pos ha, ih]
      constructor
      · rintro ⟨hbt, hbs⟩
        exact ⟨List.mem_cons_of_mem _ hbt, hbs⟩
      · rintro ⟨hbt, hbs⟩
        rcases List.mem_cons.mp hbt with rfl | hbt
        · exact absurd ha hbs
        · exact ⟨hbt, hbs⟩
    · rw [setDedupAux, if_neg ha]
      by_cases hba : b = a
      · subst hba
        constructor
        · intro _; exact ⟨List.mem_cons_self b t, ha⟩
        · intro _; exact List.mem_cons_self b _
      · simp [List.mem_cons, hba, ih]

theorem mem_setDedup {α : Type} [DecidableEq α] (b : α) (l : List α) :
    b ∈ setDedup l ↔ b ∈ l := by
  simp [setDedup, mem_setDedupAux]

theorem nodup_setDedupAux {α : Type} [DecidableEq α] :
    ∀ (l seen : List α), (setDedupAux seen l).Nodup := by
  intro l
  induction l with
  | nil => intro seen; simp [setDedupAux]
  | cons a t ih =>
    intro seen
    by_cases ha : a ∈ seen
    · rw [setDedupAux, if_pos ha]; exact ih seen
    · rw [setDedupAux, if_neg ha]
      refine List.nodup_cons.mpr ⟨fun hmem => ?_, ih (a :: seen)⟩
      have := (mem_setDedupAux a t (a :: seen)).mp hmem
      exact this.2 (List.mem_cons_self a seen)

theorem nodup_setDedup {α : Type} [DecidableEq α] (l : List α) :
    (setDedup l).Nodup :=
  nodup_setDedupAux l []

theorem length_setDedupAux_le {α : Type} [DecidableEq α] :
    ∀ (l seen : List α), (setDedupAux seen l).length ≤ l.length := by
  intro l
  induction l with
  | nil => intro seen; simp [setDedupAux]
  | cons a t ih =>
    intro seen
    by_cases ha : a ∈ seen
    · rw [setDedupAux, if_pos ha]
      exact Nat.le_succ_of_le (ih seen)
    · rw [setDedupAux, if_neg ha]
      simpa using Nat.succ_le_succ (ih (a :: seen))

theorem length_setDedup_le {α : Type} [DecidableEq α] (l : List α) :
    (setDedup l).length ≤ l.length :=
  length_setDedupAux_le l []

theorem setDedupAux_map_some :
    ∀ (l seen : List Int),
      setDedupAux (seen.map some) (l.map some) = (setDedupAux seen l).map some := by
  intro l
  induction l with
  | nil => intro seen; simp [setDedupAux]
  | cons a t ih =>
    intro seen
    by_cases ha : a ∈ seen
    · have ha' : some a ∈ seen.map some := List.mem_map_of_mem some ha
      rw [List.map_cons, setDedupAux, if_pos ha', setDedupAux, if_pos ha, ih]
    · have ha' : some a ∉ seen.map some := by
        intro hm
        rcases List.mem_map.mp hm with ⟨x, hx, hxa⟩
        have hxa' : x = a := Option.some.inj hxa
        exact ha (hxa' ▸ hx)
      rw [List.map_cons, setDedupAux, if_neg ha', setDedupAux, if_neg ha]
      have : (a :: seen).map some = some a :: seen.map some := rfl
      rw [← this, ih (a :: seen), List.map_cons]

theorem setDedup_map_some (l : List Int) :
    setDedup (l.map some) = (setDedup l).map some :=
  setDedupAux_map_some l []

/-! ### Characterizing `buildUnifiedMedalData` by lookup -/

theorem lookup_filterMap_of_not_mem {β : Type} (g : String → Option β) :
    ∀ (ys : List String) (c : String), c ∉ ys →
      ((ys.filterMap fun a => (g a).map fun e => (a, e)).lookup c) = none := by
  intro ys
  induction ys with
  | nil => intro c _; rfl
  | cons a t ih =>
    intro c hc
    have hca : c ≠ a := fun h => hc (h ▸ List.mem_cons_self a t)
    have hct : c ∉ t := fun h => hc (List.mem_cons_of_mem a h)
    cases hga : g a with
    | none => simpa [List.filterMap_cons, hga] using ih c hct
    | some e =>
      have hb : (c == a) = false := by simp [hca]
      simp [List.filterMap_cons, hga, List.lookup, hb, ih c hct]

theorem lookup_filterMap_nodup {β : Type} (g : String → Option β) :
    ∀ (ys : List String), ys.Nodup → ∀ c : String,
      ((ys.filterMap fun a => (g a).map fun e => (a, e)).lookup c) =
        if c ∈ ys then g c else none := by
  intro ys
  induction ys with
  | nil => intro _ c; rfl
  | cons a t ih =>
    intro hnd c
    have hat : a ∉ t := (List.nodup_cons.mp hnd).1
    have hndt : t.Nodup := (List.nodup_cons.mp hnd).2
    by_cases hca : c = a
    · subst hca
      cases hga : g c with
      | none =>
        simp only [List.filterMap_cons, hga, Option.map_none']
        rw [lookup_filterMap_of_not_mem g t c hat]
        simp [hga]
      | some e =>
        simp [List.filterMap_cons, hga, List.lookup]
    · have hb : (c == a) = false := by simp [hca]
      cases hga : g a with
      | none =>
        simp only [List.filterMap_cons, hga, Option.map_none']
        rw [ih hndt c]
        simp [List.mem_cons, hca]
      | some e =>
        simp only [List.filterMap_cons, hga, Option.map_some']
        simp only [List.lookup, hb]
        rw [ih hndt c]
        simp [List.mem_cons, hca]

theorem lookup_getD_bind {β : Type} (t : List (String × List (String × β)))
    (y c : String) :
    ((t.lookup y).getD []).lookup c = lookup2 t y c := by
  cases h : t.lookup y with
  | none => simp [lookup2, h]
  | some m => simp [lookup2, h]

theorem lookup_buildYearData (summerData winterData : List (String × SeasonMedalEntry))
    (c : String) :
    (buildYearData summerData winterData).lookup c =
      mkUnifiedEntry (summerData.lookup c) (winterData.lookup c) := by
  unfold buildYearData
  rw [lookup_filterMap_nodup _ _ (nodup_setDedup _) c]
  by_cases hc : c ∈ setDedup (summerData.map Prod.fst ++ winterData.map Prod.fst)
  · rw [if_pos hc]
  · rw [if_neg hc]
    have hc' := fun h => hc ((mem_setDedup _ _).mpr h)
    have hcs : c ∉ summerData.map Prod.fst :=
      fun h => hc' (List.mem_append.mpr (Or.inl h))
    have hcw : c ∉ winterData.map Prod.fst :=
      fun h => hc' (List.mem_append.mpr (Or.inr h))
    rw [lookup_eq_none_of_not_mem hcs, lookup_eq_none_of_not_mem hcw]
    rfl

theorem yearLookup_build (summerMedals winterMedals : SeasonYearTable) (y : String) :
    (buildUnifiedMedalData summerMedals winterMedals).lookup y =
      if y ∈ setDedup (summerMedals.map Prod.fst ++ winterMedals.map Prod.fst) then
        some (buildYearData ((summerMedals.lookup y).getD [])
          ((winterMedals.lookup y).getD []))
      else none := by
  unfold buildUnifiedMedalData
  exact lookup_map_self _ _ y

/-- Master lemma: a unified lookup is `mkUnifiedEntry` of the two season
lookups, for every pair of tables, year and country. -/
theorem lookup2_build (summerMedals winterMedals : SeasonYearTable) (y c : String) :
    lookup2 (buildUnifiedMedalData summerMedals winterMedals) y c =
      mkUnifiedEntry (lookup2 summerMedals y c) (lookup2 winterMedals y c) := by
  show ((buildUnifiedMedalData summerMedals winterMedals).lookup y).bind
      (fun m => m.lookup c) = _
  rw [yearLookup_build]
  by_cases hy : y ∈ setDedup (summerMedals.map Prod.fst ++ winterMedals.map Prod.fst)
  · rw [if_pos hy]
    show (buildYearData ((summerMedals.lookup y).getD [])
        ((winterMedals.lookup y).getD [])).lookup c = _
    rw [lookup_buildYearData, lookup_getD_bind, lookup_getD_bind]
  · rw [if_neg hy]
    have hy' := fun h => hy ((mem_setDedup _ _).mpr h)
    have hys : y ∉ summerMedals.map Prod.fst :=
      fun h => hy' (List.mem_append.mpr (Or.inl h))
    have hyw : y ∉ winterMedals.map Prod.fst :=
      fun h => hy' (List.mem_append.mpr (Or.inr h))
    have h1 : lookup2 summerMedals y c = none := by
      show (summerMedals.lookup y).bind (fun m => m.lookup c) = none
      rw [lookup_eq_none_of_not_mem hys]
      rfl
    have h2 : lookup2 winterMedals y c = none := by
      show (winterMedals.lookup y).bind (fun m => m.lookup c) = none
      rw [lookup_eq_none_of_not_mem hyw]
      rfl
    rw [h1, h2]
    rfl

/-! ### Claims about the unifier -/

/-- C3: the year keys of the unified table are exactly the union of the year
keys of the summer and winter tables, and for each year the country keys are
exactly the union of the country keys present in either season; in particular
no unified entry exists without a source entry in at least one season table. -/
theorem unified_table_keys_are_union (summerMedals winterMedals : SeasonYearTable)
    (year country : String) :
    (((buildUnifiedMedalData summerMedals winterMedals).lookup year).isSome ↔
      ((summerMedals.lookup year).isSome ∨ (winterMedals.lookup year).isSome)) ∧
    ((lookup2 (buildUnifiedMedalData summerMedals winterMedals) year country).isSome ↔
      ((lookup2 summerMedals year country).isSome ∨
        (lookup2 winterMedals year country).isSome)) := by
  constructor
  · rw [yearLookup_build]
    by_cases hy : year ∈ setDedup (summerMedals.map Prod.fst ++ winterMedals.map Prod.fst)
    · rw [if_pos hy]
      constructor
      · intro _
        rcases List.mem_append.mp ((mem_setDedup _ _).mp hy) with h | h
        · exact Or.inl ((lookup_isSome_iff _ _).mpr h)
        · exact Or.inr ((lookup_isSome_iff _ _).mpr h)
      · intro _; rfl
    · rw [if_neg hy]
      constructor
      · intro h; simp at h
      · intro h
        exfalso
        apply hy
        apply (mem_setDedup _ _).mpr
        apply List.mem_append.mpr
        rcases h with h | h
        · exact Or.inl ((lookup_isSome_iff _ _).mp h)
        · exact Or.inr ((lookup_isSome_iff _ _).mp h)
  · rw [lookup2_build]
    cases hs : lookup2 summerMedals year country with
    | some s =>
      cases hw : lookup2 winterMedals year country <;> simp [mkUnifiedEntry]
    | none =>
      cases hw : lookup2 winterMedals year country <;> simp [mkUnifiedEntry]

/-- C4: for a year and country present in both season tables, the unified
entry's medal fields are the elementwise sums, `historical` is the logical OR,
and `seasons` carries each season's untouched individual totals. -/
theorem both_seasons_sum (summerMedals winterMedals : SeasonYearTable)
    (year country : String) (s w : SeasonMedalEntry)
    (hs : lookup2 summerMedals year country = some s)
    (hw : lookup2 winterMedals year country = some w) :
    ∃ e, lookup2 (buildUnifiedMedalData summerMedals winterMedals) year country =
        some e ∧
      e.gold = s.gold + w.gold ∧
      e.silver = s.silver + w.silver ∧
      e.bronze = s.bronze + w.bronze ∧
      e.historical = (s.historical || w.historical) ∧
      e.seasons = some (⟨s.gold, s.silver, s.bronze⟩, ⟨w.gold, w.silver, w.bronze⟩) := by
  have h := lookup2_build summerMedals winterMedals year country
  rw [hs, hw] at h
  exact ⟨_, h, rfl, rfl, rfl, rfl, rfl⟩

/-- Witness for C4, at the spec's 1992 Germany example. -/
theorem both_seasons_sum_witness :
    lookup2 exSummer "1992" "DE" = some ⟨33, 21, 28, false, some "Germany"⟩ ∧
    lookup2 exWinter "1992" "DE" = some ⟨10, 10, 6, false, none⟩ ∧
    ∃ e, lookup2 (buildUnifiedMedalData exSummer exWinter) "1992" "DE" = some e ∧
      e.gold = 33 + 10 ∧
      e.silver = 21 + 10 ∧
      e.bronze = 28 + 6 ∧
      e.historical = (false || false) ∧
      e.seasons = some (⟨33, 21, 28⟩, ⟨10, 10, 6⟩) :=
  ⟨rfl, rfl, both_seasons_sum exSummer exWinter "1992" "DE" _ _ rfl rfl⟩

/-- C8 (amended): for a year and country present in both season tables, the
unified `display_name` follows JS `||` truthiness: it is the summer entry's
name whenever that name is present and non-empty, and the winter entry's name
when the summer name is absent or the empty string. -/
theorem both_seasons_display_name (summerMedals winterMedals : SeasonYearTable)
    (year country : String) (s w : SeasonMedalEntry)
    (hs : lookup2 summerMedals year country = some s)
    (hw : lookup2 winterMedals year country = some w) :
    ∃ e, lookup2 (buildUnifiedMedalData summerMedals winterMedals) year country =
        some e ∧
      e.display_name = jsStrOr s.display_name w.display_name ∧
      (∀ nm, s.display_name = some nm → nm ≠ "" → e.display_name = some nm) ∧
      ((s.display_name = none ∨ s.display_name = some "") →
        e.display_name = w.display_name) := by
  have h := lookup2_build summerMedals winterMedals year country
  rw [hs, hw] at h
  refine ⟨_, h, rfl, ?_, ?_⟩
  · intro nm hnm hne
    show jsStrOr s.display_name w.display_name = some nm
    rw [hnm]
    simp [jsStrOr, hne]
  · intro hcase
    show jsStrOr s.display_name w.display_name = w.display_name
    rcases hcase with h0 | h0 <;> rw [h0] <;> simp [jsStrOr]

/-- Witness for C8's amended statement, at the 1992 Germany example. -/
theorem both_seasons_display_name_witness :
    lookup2 exSummer "1992" "DE" = some ⟨33, 21, 28, false, some "Germany"⟩ ∧
    lookup2 exWinter "1992" "DE" = some ⟨10, 10, 6, false, none⟩ ∧
    ∃ e, lookup2 (buildUnifiedMedalData exSummer exWinter) "1992" "DE" = some e ∧
      e.display_name = jsStrOr (some "Germany") none ∧
      (∀ nm, (some "Germany" : Option String) = some nm → nm ≠ "" →
        e.display_name = some nm) ∧
      (((some "Germany" : Option String) = none ∨
          (some "Germany" : Option String) = some "") →
        e.display_name = none) :=
  ⟨rfl, rfl,
    both_seasons_display_name exSummer exWinter "1992" "DE" _ _ rfl rfl⟩

/-- Counterexample to C8 as stated: the summer entry's name field is present
(it is `some ""`), yet the unified entry's name is the winter entry's name,
because JS `||` treats the empty string as falsy. -/
theorem display_name_present_not_used_cex :
    (lookup2 cexSummer "1992" "DE").map SeasonMedalEntry.display_name =
      some (some "") ∧
    (lookup2 (buildUnifiedMedalData cexSummer cexWinter) "1992" "DE").map
      UnifiedCountryEntry.display_name = some (some "Winter Germany") ∧
    (some (some "Winter Germany") : Option (Option String)) ≠ some (some "") :=
  ⟨rfl, rfl, by decide⟩

/-- C9: every entry of the unified table has exactly one of the two shapes:
a `seasons` breakdown (both seasons contributed) or a `season` tag (exactly
one season contributed), never both and never neither. -/
theorem unified_entry_shape (summerMedals winterMedals : SeasonYearTable)
    (year country : String) (e : UnifiedCountryEntry)
    (he : lookup2 (buildUnifiedMedalData summerMedals winterMedals) year country =
      some e) :
    (e.seasons.isSome ∧ e.season = none) ∨ (e.seasons = none ∧ e.season.isSome) := by
  have h := lookup2_build summerMedals winterMedals year country
  rw [he] at h
  cases hs : lookup2 summerMedals year country with
  | some s =>
    cases hw : lookup2 winterMedals year country with
    | some w => rw [hs, hw] at h; cases h; left; exact ⟨rfl, rfl⟩
    | none => rw [hs, hw] at h; cases h; right; exact ⟨rfl, rfl⟩
  | none =>
    cases hw : lookup2 winterMedals year country with
    | some w => rw [hs, hw] at h; cases h; right; exact ⟨rfl, rfl⟩
    | none => rw [hs, hw] at h; simp [mkUnifiedEntry] at h

/-- Witness for C9, at the 1992 Germany example (the `seasons` shape). -/
theorem unified_entry_shape_witness :
    lookup2 (buildUnifiedMedalData exSummer exWinter) "1992" "DE" = some exEntry ∧
    ((exEntry.seasons.isSome ∧ exEntry.season = none) ∨
      (exEntry.seasons = none ∧ exEntry.season.isSome)) :=
  ⟨rfl, unified_entry_shape exSummer exWinter "1992" "DE" exEntry rfl⟩

/-! ### Quantile-break machinery -/

theorem calculateQuantileBreaks_eq (medalData : UnifiedYearTable) :
    calculateQuantileBreaks medalData =
      List.insertionSort jsLeRel (setDedup (rawPicks medalData)) := rfl

theorem collect_pos {medalData : UnifiedYearTable} {v : Int}
    (h : v ∈ collectMedalCounts medalData) : 0 < v := by
  unfold collectMedalCounts at h
  rcases List.mem_flatMap.mp h with ⟨yd, _, hv⟩
  rcases List.mem_filterMap.mp hv with ⟨ce, _, hce⟩
  by_cases hp : ce.2.gold + ce.2.silver + ce.2.bronze > 0
  · rw [if_pos hp] at hce
    cases hce
    exact hp
  · rw [if_neg hp] at hce
    cases hce

theorem all_isSome_eq_map_some :
    ∀ L : List (Option Int), (∀ x ∈ L, x.isSome) → ∃ l : List Int, L = l.map some := by
  intro L
  induction L with
  | nil => intro _; exact ⟨[], rfl⟩
  | cons a t ih =>
    intro h
    rcases ih (fun x hx => h x (List.mem_cons_of_mem _ hx)) with ⟨l, hl⟩
    cases a with
    | none =>
      have := h none (List.mem_cons_self _ _)
      simp at this
    | some v => exact ⟨v :: l, by rw [List.map_cons, hl]⟩

theorem orderedInsert_map_some (x : Int) :
    ∀ l : List Int, List.orderedInsert jsLeRel (some x) (l.map some) =
      (List.orderedInsert (· ≤ ·) x l).map some := by
  intro l
  induction l with
  | nil => rfl
  | cons b t ih =>
    by_cases h : x ≤ b
    · have h1 : jsLeRel (some x) (some b) := by simp [jsLeRel, jsLeB, h]
      rw [List.map_cons, List.orderedInsert, List.orderedInsert, if_pos h1, if_pos h,
        List.map_cons, List.map_cons]
    · have h1 : ¬ jsLeRel (some x) (some b) := by simp [jsLeRel, jsLeB, h]
      rw [List.map_cons, List.orderedInsert, List.orderedInsert, if_neg h1, if_neg h,
        List.map_cons, ih]

theorem insertionSort_map_some :
    ∀ l : List Int, List.insertionSort jsLeRel (l.map some) =
      (List.insertionSort (· ≤ ·) l).map some := by
  intro l
  induction l with
  | nil => rfl
  | cons b t ih =>
    rw [List.map_cons, List.insertionSort, List.insertionSort, ih,
      orderedInsert_map_some]

theorem sorted_nodup_pairwise_lt {l : List Int}
    (hs : l.Sorted (· ≤ ·)) (hn : l.Nodup) : l.Pairwise (· < ·) := by
  have hand := List.Pairwise.and hs hn
  exact hand.imp fun h => lt_of_le_of_ne h.1 h.2

theorem bitLenAux_le :
    ∀ (fuel T : Nat), 1 ≤ bitLenAux fuel T → 2^(bitLenAux fuel T - 1) ≤ T := by
  intro fuel
  induction fuel with
  | zero => intro T h; simp [bitLenAux] at h
  | succ f ih =>
    intro T h
    by_cases hT : T = 0
    · rw [bitLenAux, if_pos hT] at h
      exact absurd h (by omega)
    · rw [bitLenAux, if_neg hT] at h ⊢
      by_cases h1 : 1 ≤ bitLenAux f (T / 2)
      · have ih2 := ih (T / 2) h1
        have hstep : 2^(bitLenAux f (T / 2) + 1 - 1) =
            2 * 2^(bitLenAux f (T / 2) - 1) := by
          have he : bitLenAux f (T / 2) + 1 - 1 = (bitLenAux f (T / 2) - 1) + 1 := by
            omega
          rw [he, pow_succ, Nat.mul_comm]
        rw [hstep]
        calc 2 * 2^(bitLenAux f (T / 2) - 1) ≤ 2 * (T / 2) :=
              Nat.mul_le_mul (Nat.le_refl 2) ih2
          _ ≤ T := by omega
      · have h0 : bitLenAux f (T / 2) = 0 := by omega
        rw [h0]
        have h1T : 1 ≤ T := by omega
        simpa using h1T

theorem bitLen_le {T : Nat} (h : 1 ≤ bitLen T) : 2^(bitLen T - 1) ≤ T :=
  bitLenAux_le 128 T h

theorem roundQ_le (q r half : Nat) : roundQ q r half ≤ q + 1 := by
  rw [roundQ]
  split_ifs <;> omega

theorem roundSig_le (T : Nat) : 2^52 * roundSig T ≤ (2^52 + 1) * T := by
  rw [roundSig]
  by_cases hb : bitLen T ≤ 53
  · rw [if_pos hb]
    exact Nat.mul_le_mul (by omega) (Nat.le_refl T)
  · rw [if_neg hb]
    set k := bitLen T - 53 with hkdef
    have hk52 : 2^k * 2^52 ≤ T := by
      have he : 2^k * 2^52 = 2^(bitLen T - 1) := by
        rw [← pow_add]
        congr 1
        omega
      rw [he]
      exact bitLen_le (by omega)
    have hq2 : roundQ (T / 2^k) (T % 2^k) (2^(k-1)) ≤ T / 2^k + 1 := roundQ_le _ _ _
    have hdm : T / 2^k * 2^k ≤ T := Nat.div_mul_le_self T (2^k)
    calc 2^52 * (roundQ (T / 2^k) (T % 2^k) (2^(k-1)) * 2^k)
        ≤ 2^52 * ((T / 2^k + 1) * 2^k) :=
          Nat.mul_le_mul (Nat.le_refl _) (Nat.mul_le_mul hq2 (Nat.le_refl _))
      _ = 2^52 * (T / 2^k * 2^k) + 2^52 * 2^k := by ring
      _ ≤ 2^52 * T + 2^k * 2^52 := by
          have h5 : 2^52 * (T / 2^k * 2^k) ≤ 2^52 * T :=
            Nat.mul_le_mul (Nat.le_refl _) hdm
          have he : (2:Nat)^52 * 2^k = 2^k * 2^52 := Nat.mul_comm _ _
          rw [he]
          exact Nat.add_le_add_right h5 _
      _ ≤ 2^52 * T + T := Nat.add_le_add_left hk52 _
      _ = (2^52 + 1) * T := by ring

/-- For a fraction below 1 (with two ulps of headroom, true of all eight
quantile fractions) the floating-point floor index stays below `n`. -/
theorem jsMulFloor_lt {M s : Nat} (hM : (2^52 + 1) * M < 2^52 * 2^s)
    {n : Nat} (hn : 0 < n) : jsMulFloor n (M, s) < n := by
  rw [jsMulFloor]
  rw [Nat.div_lt_iff_lt_mul (pow_pos (by norm_num) s)]
  have hrs := roundSig_le (n * M)
  have h4 : n * ((2^52 + 1) * M) < n * (2^52 * 2^s) :=
    mul_lt_mul_of_pos_left hM hn
  have h5 : 2^52 * roundSig (n * M) < 2^52 * (n * 2^s) := by
    calc 2^52 * roundSig (n * M) ≤ (2^52 + 1) * (n * M) := hrs
      _ = n * ((2^52 + 1) * M) := by ring
      _ < n * (2^52 * 2^s) := h4
      _ = 2^52 * (n * 2^s) := by ring
  exact lt_of_mul_lt_mul_left h5 (Nat.zero_le _)

theorem breaks_length_le (medalData : UnifiedYearTable) :
    (calculateQuantileBreaks medalData).length ≤ 8 := by
  rw [calculateQuantileBreaks_eq, List.length_insertionSort]
  have h2 := length_setDedup_le (rawPicks medalData)
  have h3 : (rawPicks medalData).length = 8 := by
    simp [rawPicks, QUANTILE_FRACTIONS]
  omega

theorem mem_breaks_iff (medalData : UnifiedYearTable) (b : Option Int) :
    b ∈ calculateQuantileBreaks medalData ↔ b ∈ rawPicks medalData := by
  rw [calculateQuantileBreaks_eq, List.mem_insertionSort]
  exact mem_setDedup b _

theorem breaks_mem_pos (medalData : UnifiedYearTable) (v : Int)
    (h : some v ∈ calculateQuantileBreaks medalData) : 0 < v := by
  rcases List.mem_map.mp ((mem_breaks_iff _ _).mp h) with ⟨fr, _, hpx⟩
  have hget : (sortedCounts medalData).get?
      (jsMulFloor (sortedCounts medalData).length fr) = some v := hpx
  have hv : v ∈ sortedCounts medalData := List.get?_mem hget
  rw [sortedCounts, List.mem_insertionSort] at hv
  exact collect_pos hv

theorem breaks_eq_map_some (medalData : UnifiedYearTable)
    (hne : collectMedalCounts medalData ≠ []) :
    ∃ l : List Int, calculateQuantileBreaks medalData = l.map some ∧
      l.Pairwise (· < ·) := by
  have hlen : 0 < (sortedCounts medalData).length := by
    rw [sortedCounts, List.length_insertionSort]
    exact List.length_pos.mpr hne
  have hsome : ∀ x ∈ rawPicks medalData, x.isSome := by
    intro x hx
    rcases List.mem_map.mp hx with ⟨fr, hfr, hpx⟩
    have hidx : jsMulFloor (sortedCounts medalData).length fr <
        (sortedCounts medalData).length := by
      simp only [QUANTILE_FRACTIONS, List.mem_cons, List.not_mem_nil, or_false] at hfr
      rcases hfr with rfl | rfl | rfl | rfl | rfl | rfl | rfl | rfl <;>
        exact jsMulFloor_lt (by decide) hlen
    rw [← hpx]
    show ((sortedCounts medalData).get? _).isSome
    rw [List.get?_eq_get hidx]
    rfl
  rcases all_isSome_eq_map_some _ hsome with ⟨li, hli⟩
  refine ⟨List.insertionSort (· ≤ ·) (setDedup li), ?_, ?_⟩
  · rw [calculateQuantileBreaks_eq, hli, setDedup_map_some, insertionSort_map_some]
  · exact sorted_nodup_pairwise_lt (List.sorted_insertionSort _ _)
      ((List.perm_insertionSort _ _).symm.nodup (nodup_setDedup li))

theorem findBreakIndex_le_length (n : Int) :
    ∀ bs : List (Option Int), findBreakIndex n bs ≤ bs.length := by
  intro bs
  induction bs with
  | nil => exact Nat.le_refl 0
  | cons b rest ih =>
    rw [findBreakIndex]
    by_cases h : jsLeB (some n) b = true
    · rw [if_pos h]; exact Nat.zero_le _
    · rw [if_neg h]; simpa using Nat.succ_le_succ ih

theorem findBreakIndex_mono {x y : Int} (hxy : x ≤ y) :
    ∀ bs : List (Option Int), findBreakIndex x bs ≤ findBreakIndex y bs := by
  intro bs
  induction bs with
  | nil => exact Nat.le_refl 0
  | cons b rest ih =>
    rw [findBreakIndex, findBreakIndex]
    by_cases hx : jsLeB (some x) b = true
    · rw [if_pos hx]; exact Nat.zero_le _
    · rw [if_neg hx]
      by_cases hy : jsLeB (some y) b = true
      · exfalso
        cases b with
        | none => simp [jsLeB] at hy
        | some v =>
          simp only [jsLeB, decide_eq_true_eq] at hx hy
          exact hx (le_trans hxy hy)
      · rw [if_neg hy]
        exact Nat.succ_le_succ ih

theorem findBreakIndex_all_lt {x : Int} :
    ∀ bs : List (Option Int), (∀ v, some v ∈ bs → v < x) →
      findBreakIndex x bs = bs.length := by
  intro bs
  induction bs with
  | nil => intro _; rfl
  | cons b rest ih =>
    intro h
    rw [findBreakIndex]
    have hb : ¬ (jsLeB (some x) b = true) := by
      cases b with
      | none => simp [jsLeB]
      | some v =>
        have hv := h v (List.mem_cons_self _ _)
        simp only [jsLeB, decide_eq_true_eq]
        omega
    rw [if_neg hb, List.length_cons,
      ih (fun v hv => h v (List.mem_cons_of_mem _ hv))]

theorem findBreakIndex_get :
    ∀ l : List Int, l.Pairwise (· < ·) → ∀ (i : Nat) (x : Int),
      l.get? i = some x → findBreakIndex x (l.map some) = i := by
  intro l
  induction l with
  | nil => intro _ i x h; simp at h
  | cons a t ih =>
    intro hl i x h
    cases i with
    | zero =>
      have hax : a = x := by simpa using h
      subst hax
      rw [List.map_cons, findBreakIndex]
      have hle : jsLeB (some a) (some a) = true := by
        simp [jsLeB]
      rw [if_pos hle]
    | succ j =>
      have hgt : t.get? j = some x := by simpa using h
      have hx : x ∈ t := List.get?_mem hgt
      have hax : a < x := (List.pairwise_cons.mp hl).1 x hx
      rw [List.map_cons, findBreakIndex]
      have hfalse : ¬ (jsLeB (some x) (some a) = true) := by
        simp only [jsLeB, decide_eq_true_eq]
        omega
      rw [if_neg hfalse, ih (List.pairwise_cons.mp hl).2 j x hgt]

theorem getD_mem {α : Type} :
    ∀ (l : List α) (i : Nat) (d : α), i < l.length → l.getD i d ∈ l := by
  intro l
  induction l with
  | nil => intro i d h; simp at h
  | cons a t ih =>
    intro i d h
    cases i with
    | zero => simp
    | succ j =>
      rw [List.getD_cons_succ]
      exact List.mem_cons_of_mem a (ih j d (by simpa using Nat.lt_of_succ_lt_succ h))

/-! ### Claims about the classifier and the year resolver -/

/-- Counterexample to C5 as stated: on the 90-value distribution 1..90 the
exact floor-index rule selects index `floor(0.70 * 90) = 63`, value 64 — but
the code computes `90 * 0.70` in binary64, getting `62.99999999999999`, so
it selects index 62, value 63, and 64 is not in the computed break set at
all. -/
theorem quantile_breaks_exact_index_cex :
    (sortedCounts md90).length = 90 ∧
    (90 : Nat) * 70 / 100 = 63 ∧
    (sortedCounts md90).get? 63 = some 64 ∧
    jsMulFloor 90 (6305039478318694, 53) = 62 ∧
    calculateQuantileBreaks md90 =
      [some 14, some 32, some 50, some 63, some 74, some 82, some 87, some 90] ∧
    some (64 : Int) ∉ calculateQuantileBreaks md90 := by
  decide

/-- C5 (amended): for a non-empty distribution the break set consists
exactly of the values selected at the indices `Math.floor(N * fraction)` the
code computes in binary64 floating point (`jsMulFloor`, which agrees with
the exact `floor(fraction * N)` for most but not all `N`), rounded up (the
identity on the integer totals) and deduplicated; the result is strictly
ascending with at most 8 entries; on the example distribution
`[1,2,2,3,5,8,13,21,34,55]` the 0.15 fraction selects index 1, value 2. -/
theorem quantile_breaks_spec (medalData : UnifiedYearTable)
    (hne : collectMedalCounts medalData ≠ []) :
    (∃ l : List Int, calculateQuantileBreaks medalData = l.map some ∧
        l.Pairwise (· < ·)) ∧
    (calculateQuantileBreaks medalData).length ≤ 8 ∧
    (∀ v : Int, some v ∈ calculateQuantileBreaks medalData ↔
      ∃ fr ∈ QUANTILE_FRACTIONS,
        (sortedCounts medalData).get?
          (jsMulFloor (sortedCounts medalData).length fr) = some v) ∧
    (jsMulFloor 10 (5404319552844595, 55) = 1 ∧
      (sortedCounts mdTen).get? 1 = some 2) := by
  refine ⟨breaks_eq_map_some medalData hne, breaks_length_le medalData, ?_, by decide⟩
  intro v
  rw [mem_breaks_iff]
  constructor
  · intro h
    rcases List.mem_map.mp h with ⟨fr, hfr, hpx⟩
    exact ⟨fr, hfr, hpx⟩
  · rintro ⟨fr, hfr, hpx⟩
    exact List.mem_map.mpr ⟨fr, hfr, hpx⟩

/-- Witness for C5's amended statement, at the table whose distribution is
the spec's example. -/
theorem quantile_breaks_spec_witness :
    collectMedalCounts mdTen ≠ [] ∧
    ((∃ l : List Int, calculateQuantileBreaks mdTen = l.map some ∧
        l.Pairwise (· < ·)) ∧
      (calculateQuantileBreaks mdTen).length ≤ 8 ∧
      (∀ v : Int, some v ∈ calculateQuantileBreaks mdTen ↔
        ∃ fr ∈ QUANTILE_FRACTIONS,
          (sortedCounts mdTen).get?
            (jsMulFloor (sortedCounts mdTen).length fr) = some v) ∧
      (jsMulFloor 10 (5404319552844595, 55) = 1 ∧
        (sortedCounts mdTen).get? 1 = some 2)) :=
  ⟨by decide, quantile_breaks_spec mdTen (by decide)⟩

/-- C6: over a break set built from a non-empty distribution, the bucket
index is monotone non-decreasing in the total; a total exactly equal to a
breakpoint gets that breakpoint's color (not the next one up); and a total
exceeding every breakpoint gets the last, darkest color. -/
theorem color_monotone_tiebreak (medalData : UnifiedYearTable) (x y : Int)
    (hne : collectMedalCounts medalData ≠ []) (hx : 0 < x) (hxy : x ≤ y) :
    bucketIndex (calculateQuantileBreaks medalData) x ≤
      bucketIndex (calculateQuantileBreaks medalData) y ∧
    (∀ (i : Nat) (v : Int),
      (calculateQuantileBreaks medalData).get? i = some (some v) →
      getColorForMedalCount (calculateQuantileBreaks medalData) (.num v) =
        COLOR_PALETTE.colors.getD i "undefined") ∧
    ((∀ v : Int, some v ∈ calculateQuantileBreaks medalData → v < x) →
      getColorForMedalCount (calculateQuantileBreaks medalData) (.num x) =
        "#7f0000") := by
  rcases breaks_eq_map_some medalData hne with ⟨l, hl, hlt⟩
  have hlen8 := breaks_length_le medalData
  refine ⟨?_, ?_, ?_⟩
  · have hmono := findBreakIndex_mono hxy (calculateQuantileBreaks medalData)
    unfold bucketIndex
    have hc9 : COLOR_PALETTE.colors.length - 1 = 8 := rfl
    by_cases h2 : findBreakIndex y (calculateQuantileBreaks medalData) <
        (calculateQuantileBreaks medalData).length
    · have h1 : findBreakIndex x (calculateQuantileBreaks medalData) <
          (calculateQuantileBreaks medalData).length := lt_of_le_of_lt hmono h2
      rw [if_pos h1, if_pos h2]
      exact hmono
    · rw [if_neg h2]
      by_cases h1 : findBreakIndex x (calculateQuantileBreaks medalData) <
          (calculateQuantileBreaks medalData).length
      · rw [if_pos h1]
        omega
      · rw [if_neg h1]
  · intro i v hget
    have hiv : l.get? i = some v := by
      have hget2 := hget
      rw [hl] at hget2
      have hmap : (l.map some).get? i = (l.get? i).map some :=
        List.get?_map some l i
      rw [hmap] at hget2
      cases hli : l.get? i with
      | none => rw [hli] at hget2; cases hget2
      | some w =>
        rw [hli] at hget2
        have hw : w = v := by simpa using hget2
        rw [hw]
    have hfind : findBreakIndex v (calculateQuantileBreaks medalData) = i := by
      rw [hl]
      exact findBreakIndex_get l hlt i v hiv
    have hpos : 0 < v := breaks_mem_pos medalData v (List.get?_mem hget)
    have hv0 : ¬ (v = 0) := by omega
    have hlt' : i < (calculateQuantileBreaks medalData).length :=
      (List.get?_eq_some.mp hget).1
    rw [getColorForMedalCount]
    simp only [hv0, if_false]
    rw [hfind, if_pos hlt']
  · intro hall
    have hfind : findBreakIndex x (calculateQuantileBreaks medalData) =
        (calculateQuantileBreaks medalData).length :=
      findBreakIndex_all_lt (calculateQuantileBreaks medalData) hall
    have hx0 : ¬ (x = 0) := by omega
    rw [getColorForMedalCount]
    simp only [hx0, if_false]
    rw [hfind, if_neg (lt_irrefl _)]
    rfl

/-- Witness for C6, at the example table with x = 2 (a breakpoint) and y = 3. -/
theorem color_monotone_tiebreak_witness :
    collectMedalCounts mdTen ≠ [] ∧ (0 : Int) < 2 ∧ (2 : Int) ≤ 3 ∧
    (bucketIndex (calculateQuantileBreaks mdTen) 2 ≤
        bucketIndex (calculateQuantileBreaks mdTen) 3 ∧
      (∀ (i : Nat) (v : Int),
        (calculateQuantileBreaks mdTen).get? i = some (some v) →
        getColorForMedalCount (calculateQuantileBreaks mdTen) (.num v) =
          COLOR_PALETTE.colors.getD i "undefined") ∧
      ((∀ v : Int, some v ∈ calculateQuantileBreaks mdTen → v < 2) →
        getColorForMedalCount (calculateQuantileBreaks mdTen) (.num 2) =
          "#7f0000")) :=
  ⟨by decide, by decide, by decide,
    color_monotone_tiebreak mdTen 2 3 (by decide) (by decide) (by decide)⟩

/-- C1 (amended): a total of zero, `null` or `undefined` is always mapped to
the no-data color, for every break set.  (A negative total is not
special-cased by the code: see the counterexample.) -/
theorem zero_null_undefined_no_data (quantileBreaks : List (Option Int)) :
    getColorForMedalCount quantileBreaks (.num 0) = COLOR_PALETTE.noData ∧
    getColorForMedalCount quantileBreaks .nullv = COLOR_PALETTE.noData ∧
    getColorForMedalCount quantileBreaks .undef = COLOR_PALETTE.noData := by
  refine ⟨?_, rfl, rfl⟩
  rw [getColorForMedalCount]
  simp

/-- Counterexample to C1 as stated: on the break set built from the one-total
distribution `[2]`, a negative total is classified with the first (lightest)
bucket color, not the no-data color. -/
theorem negative_count_not_no_data_cex :
    calculateQuantileBreaks mdSingle = [some 2] ∧
    getColorForMedalCount (calculateQuantileBreaks mdSingle) (.num (-1)) =
      "#fff7ec" ∧
    "#fff7ec" ≠ COLOR_PALETTE.noData := by
  exact ⟨by decide, by decide, by decide⟩

/-- C2 (evaluation at the failing input): with an empty distribution the code
computes the break list `[NaN]` — not the empty list — because indexing an
empty array gives `undefined` and `Math.ceil(undefined)` is `NaN`; a positive
total is then classified with the darkest color, not the no-data color
(every `count <= NaN` test is false, so the loop falls through). -/
theorem empty_distribution_nan_breaks :
    collectMedalCounts ([] : UnifiedYearTable) = [] ∧
    calculateQuantileBreaks ([] : UnifiedYearTable) = [none] ∧
    getColorForMedalCount (calculateQuantileBreaks ([] : UnifiedYearTable))
      (.num 1) = "#7f0000" ∧
    "#7f0000" ≠ COLOR_PALETTE.noData := by
  exact ⟨rfl, by decide, by decide, by decide⟩

/-- C7: for every year in the cancelled set and every unified table —
including tables with entries for that year — the resolver answers
cancelled, no summer, no winter, before any data lookup. -/
theorem cancelled_year_precedence (medalData : UnifiedYearTable) (year : Int)
    (h : year = 1916 ∨ year = 1940 ∨ year = 1944) :
    getOlympicsForYear medalData year = ⟨true, false, false⟩ := by
  have hmem : year ∈ cancelledYears := by
    rcases h with h | h | h <;> simp [cancelledYears, h]
  rw [getOlympicsForYear, if_pos hmem]

/-- Witness for C7, at a table that does contain (placeholder) 1916 data. -/
theorem cancelled_year_precedence_witness :
    ((1916 : Int) = 1916 ∨ (1916 : Int) = 1940 ∨ (1916 : Int) = 1944) ∧
    getOlympicsForYear md1916 1916 = ⟨true, false, false⟩ :=
  ⟨Or.inl rfl, cancelled_year_precedence md1916 1916 (Or.inl rfl)⟩

/-- C10: the classifier is total and never indexes outside the palette: the
break set always has at most 8 entries, the palette has 9 colors, and the
result is always one of the palette colors or the no-data color (never the
JS `undefined` an out-of-range access would produce). -/
theorem color_for_total_safe (medalData : UnifiedYearTable) (count : JsVal) :
    (calculateQuantileBreaks medalData).length ≤ 8 ∧
    COLOR_PALETTE.colors.length = 9 ∧
    getColorForMedalCount (calculateQuantileBreaks medalData) count ∈
      COLOR_PALETTE.noData :: COLOR_PALETTE.colors := by
  refine ⟨breaks_length_le medalData, rfl, ?_⟩
  cases count with
  | nullv => exact List.mem_cons_self _ _
  | undef => exact List.mem_cons_self _ _
  | num n =>
    rw [getColorForMedalCount]
    by_cases h0 : n = 0
    · rw [if_pos h0]
      exact List.mem_cons_self _ _
    · rw [if_neg h0]
      by_cases hlt : findBreakIndex n (calculateQuantileBreaks medalData) <
          (calculateQuantileBreaks medalData).length
      · rw [if_pos hlt]
        apply List.mem_cons_of_mem
        apply getD_mem
        have h8 := breaks_length_le medalData
        have : COLOR_PALETTE.colors.length = 9 := rfl
        omega
      · rw [if_neg hlt]
        apply List.mem_cons_of_mem
        apply getD_mem
        decide
